import Mathlib

/-!
# `copyinstr` (PowerPC ibm4xx) and the winsock `FD_SET` / `FD_CLR` fix-ups

A shallow embedding of

* `sys/arch/powerpc/ibm4xx/copyinstr.c` : `copyinstr`
* `external/mpl/bind/dist/lib/isc/win32/include/isc/net.h` : `FD_CLR`, `FD_SET`

Buffers are addressed by byte offset from the pointer handed to the routine:
offset `i` of the user string is the byte at `udaddr + i`, offset `i` of the
kernel buffer is the byte at `kaddr + i`.
-/

namespace Copyinstr

/-- One byte of memory: what `lbz` loads and `stb` stores. -/
abbrev Byte := Fin 256

/-- Modelled from the spec: the "string too long" condition, the constant
`ENAMETOOLONG` of `<sys/errno.h>` (a header that is not among the sources);
63 is its NetBSD value. -/
def ENAMETOOLONG : Int := 63

/-- Modelled from the spec: the "bad address" error, the constant `EFAULT` of
`<sys/errno.h>` (a header that is not among the sources); 14 is its NetBSD
value. -/
def EFAULT : Int := 14

/-- Modelled from the spec: the value with which `setfault` returns the second
time, when the trap handler unwinds a faulting access to the recovery point.
Neither `setfault` nor the trap handler is among the sources; the spec has the
recovery point return "the fault's error code (mapped to "bad address"
class)". It is non-zero, so the branch at line 60 is taken. -/
def setfault_fault_rv : Int := EFAULT

/-- The `struct pmap` of the calling process, reduced to the one field that
`copyinstr` reads: the context id `pm_ctx` (zero: none assigned yet). -/
structure pmap where
  pm_ctx : Nat
deriving DecidableEq, Repr

/-- The kernel state that `copyinstr` reads and writes apart from the buffers:
`pm` is `curproc->p_vmspace->vm_map.pmap`, `pcb_onfault` is
`curpcb->pcb_onfault` (`none` for `NULL`, `some a` for a fault buffer at
address `a`). -/
structure KState where
  pm : pmap
  pcb_onfault : Option Nat
deriving DecidableEq, Repr

/-- Modelled from the spec: the first return of `setfault(&env)`, which
installs the fault buffer `env` as the fault-recovery guard of the current
context (and returns 0). `setfault` is not among the sources. -/
def setfault (s : KState) (env : Nat) : KState :=
  { s with pcb_onfault := some env }

/-- Lines 67-71: `if (!(ctx = pm->pm_ctx)) { ctx_alloc(pm); ctx = pm->pm_ctx; }`.
`ctx_alloc` (not among the sources) is a parameter acting on the pmap.
Returns the pmap afterwards, the local `ctx`, and the number of calls of
`ctx_alloc` made. -/
def assign_ctx (ctx_alloc : pmap → pmap) (pm : pmap) : pmap × Nat × Nat :=
  if pm.pm_ctx = 0 then
    let pm1 := ctx_alloc pm
    (pm1, pm1.pm_ctx, 1)
  else
    (pm, pm.pm_ctx, 0)

/-- The instruction `stb %2,0(%6)`: store `data` at offset `i` of the kernel
buffer. -/
def stb (k : Nat → Byte) (i : Nat) (data : Byte) : Nat → Byte :=
  fun j => if j = i then data else k j

/-- How the loop at label `1:` is left. `loads` lists the user-memory loads
executed, most recent first, each as (value of the PID register, offset). -/
inductive LoopExit where
  /-- The `lbz` faulted and the trap handler unwound to the recovery point. -/
  | fault (k : Nat → Byte) (loads : List (Nat × Nat))
  /-- The `bdnzf` fell through: CTR, the last byte loaded, the kernel buffer. -/
  | done (ctr : Nat) (data : Byte) (k : Nat → Byte) (loads : List (Nat × Nat))

/-- The loop of lines 82-93, one pass per recursive call.

`uload pid i` is what `lbz` obtains at offset `i` of the user string while the
PID register holds `pid`: `some b` for the byte, `none` when the access faults
and the fault is not resolved. `n` is the value CTR takes at the `bdnzf` of
the current pass, so the pass is entered with CTR equal to `n + 1`; `i` is the
number of bytes already copied, so `%5 = udaddr + i` and `%6 = kaddr + i`.

A pass loads PID with `ctx`, loads the byte, restores PID, stores the byte in
the kernel buffer, sets CR0 from the byte and executes `bdnzf 2,1b`: CTR is
decremented, and the branch back is taken when CTR is non-zero and the byte
is non-zero. -/
def copy_loop (uload : Nat → Nat → Option Byte) (ctx : Nat) :
    Nat → Nat → (Nat → Byte) → List (Nat × Nat) → LoopExit
  | n, i, k, loads =>
    match uload ctx i with
    | none => LoopExit.fault k ((ctx, i) :: loads)
    | some data =>
      match n with
      | 0 => LoopExit.done 0 data (stb k i data) ((ctx, i) :: loads)
      | m + 1 =>
        if data ≠ 0 then
          copy_loop uload ctx m (i + 1) (stb k i data) ((ctx, i) :: loads)
        else
          LoopExit.done (m + 1) data (stb k i data) ((ctx, i) :: loads)

/-- What a call of `copyinstr` leaves behind. -/
structure Outcome where
  /-- the value returned -/
  rv : Int
  /-- `*done` afterwards; `none` when `done` is `NULL` -/
  done : Option Nat
  /-- the kernel buffer afterwards -/
  kbuf : Nat → Byte
  /-- the kernel state afterwards -/
  state : KState
  /-- user-memory loads executed, most recent first: (PID register, offset) -/
  loads : List (Nat × Nat)
  /-- number of calls of `ctx_alloc` -/
  allocs : Nat
  /-- whether the call returned through the recovery point of line 60 -/
  faulted : Bool

/-- The function `copyinstr(udaddr, kaddr, len, done)`.

* `ctx_alloc`, `uload`: the pmap module and the user memory as the MMU
  presents it, see `assign_ctx` and `copy_loop`;
* `s`: kernel state on entry; `env`: address of the local `struct faultbuf env`;
* `kaddr`: the kernel buffer on entry; `len`: the `size_t` length;
* `done`: `none` when the pointer `done` is `NULL`, else `some v` with `v`
  the current content of `*done`.

`mtctr %3` puts `len`, non-zero past line 58, into CTR, so the first `bdnzf`
sees `len - 1`; `mfctr %3` reads `resid` back. CTR is at least 1 on entry to
every pass and `resid` is below `len`, so none of the 32-bit operations on
them wraps and the arithmetic is that of the natural numbers. -/
def copyinstr (ctx_alloc : pmap → pmap) (uload : Nat → Nat → Option Byte)
    (s : KState) (env : Nat) (kaddr : Nat → Byte) (len : Nat)
    (done : Option Nat) : Outcome :=
  if len = 0 then
    { rv := 0, done := done.map (fun _ => 0), kbuf := kaddr, state := s,
      loads := [], allocs := 0, faulted := false }
  else
    let s1 := setfault s env
    let a := assign_ctx ctx_alloc s1.pm
    let s2 : KState := { s1 with pm := a.1 }
    let ctx := a.2.1
    match copy_loop uload ctx (len - 1) 0 kaddr [] with
    | LoopExit.fault k loads =>
      { rv := setfault_fault_rv, done := done.map (fun _ => 0), kbuf := k,
        state := { s2 with pcb_onfault := none },
        loads := loads, allocs := a.2.2, faulted := true }
    | LoopExit.done resid data k loads =>
      { rv := if resid = 0 ∧ data ≠ 0 then ENAMETOOLONG else 0,
        done := done.map (fun _ => len - resid), kbuf := k,
        state := { s2 with pcb_onfault := none },
        loads := loads, allocs := a.2.2, faulted := false }

/-- The user string as a call of `copyinstr` in state `s` reads it: offset `i`
loaded while PID holds the context id that lines 67-71 pick for the pmap. -/
def user_bytes (ctx_alloc : pmap → pmap) (uload : Nat → Nat → Option Byte)
    (s : KState) (i : Nat) : Option Byte :=
  uload (assign_ctx ctx_alloc s.pm).2.1 i

/-! ### Test fixtures -/

/-- A `ctx_alloc` that hands out context id 5. -/
def alloc5 (_ : pmap) : pmap := { pm_ctx := 5 }

/-- Bytes of a list, every offset past its end faulting. -/
def mem_of (l : List Byte) (i : Nat) : Option Byte := l.get? i

/-- User memory holding `"hello\0world"`, mapped under context id 5 only. -/
def hello (pid : Nat) : Nat → Option Byte :=
  if pid = 5 then mem_of [104, 101, 108, 108, 111, 0, 119, 111, 114, 108, 100]
  else fun _ => none

/-- User memory holding `"abcdef"` with an unmapped page behind it, mapped
under context id 5 only. -/
def abcdef (pid : Nat) : Nat → Option Byte :=
  if pid = 5 then mem_of [97, 98, 99, 100, 101, 102] else fun _ => none

/-- User memory with nothing mapped at the string, under any context id. -/
def unmapped (_ : Nat) : Nat → Option Byte := fun _ => none

/-- A kernel buffer filled with `0xAA`. -/
def kfill : Nat → Byte := fun _ => 170

/-- A state with no context id assigned and no guard installed. -/
def s0 : KState := { pm := { pm_ctx := 0 }, pcb_onfault := none }

/-- The loads recorded in a loop exit. -/
def LoopExit.loads : LoopExit → List (Nat × Nat)
  | LoopExit.fault _ l => l
  | LoopExit.done _ _ _ l => l

/-- The kernel buffer `k` with offsets `i .. i+m-1` overwritten by the bytes
that `src` has there. -/
def kcopy (src : Nat → Option Byte) (k : Nat → Byte) (i m : Nat) : Nat → Byte :=
  fun j => if i ≤ j ∧ j < i + m then (src j).getD 0 else k j

/-- Two loop exits agree: both faulted or both fell through, then with the
same CTR and the same last byte, and at every offset their kernel buffers
either hold the same byte or are as they were on entry (`k1`, `k2`). -/
def LoopExit.agree (k1 k2 : Nat → Byte) : LoopExit → LoopExit → Prop
  | LoopExit.fault a _, LoopExit.fault b _ =>
    ∀ j, a j = b j ∨ (a j = k1 j ∧ b j = k2 j)
  | LoopExit.done c d a _, LoopExit.done c1 d1 b _ =>
    c = c1 ∧ d = d1 ∧ ∀ j, a j = b j ∨ (a j = k1 j ∧ b j = k2 j)
  | _, _ => False

/-- Two calls give the same result: the same return value, the same `*done`,
both or neither through the recovery point, and destination buffers that at
every offset either hold the same byte or are both as they were on entry
(`k1`, `k2`). -/
def Outcome.same_result (k1 k2 : Nat → Byte) (r1 r2 : Outcome) : Prop :=
  r1.rv = r2.rv ∧ r1.done = r2.done ∧ r1.faulted = r2.faulted ∧
  ∀ j, r1.kbuf j = r2.kbuf j ∨ (r1.kbuf j = k1 j ∧ r2.kbuf j = k2 j)

/-- A state with a context id assigned and a guard of some enclosing
operation installed. -/
def s7 : KState := { pm := { pm_ctx := 5 }, pcb_onfault := some 3 }

end Copyinstr

namespace Winsock

/-- The `fd_set` of winsock2.h (declared outside the sources):
`u_int fd_count; SOCKET fd_array[FD_SETSIZE];`. Entry `i` of the array is
`fd_array i`; sockets are their `SOCKET` (unsigned integer) values. -/
structure fd_set where
  fd_count : Nat
  fd_array : Nat → Nat

/-- The expression written for the parameter `fd` of `FD_SET` and `FD_CLR`.
Both are `#define`s, so the expression is substituted as text, and what it
means depends on the parentheses around the parameter in the body. Two shapes
are told apart: a primary expression (a constant, an identifier, anything in
parentheses), and a conditional `c ? a : b` written without parentheses,
with `c`, `a`, `b` primary expressions given by their values. -/
inductive fd_arg where
  /-- a primary expression of value `v` -/
  | prim (v : Nat)
  /-- the expression `c ? a : b`, not parenthesised -/
  | cond (c a b : Nat)

/-- The value of the argument expression, which is what `(SOCKET)(fd)`, with
the parameter in parentheses, denotes. -/
def fd_arg.value : fd_arg → Nat
  | fd_arg.prim v => v
  | fd_arg.cond c a b => if c ≠ 0 then a else b

/-- The `for` loop of `FD_SET`, lines 160-165 of net.h:
`for (__i = 0; __i < fd_count; __i++) if (fd_array[__i] == (SOCKET)(fd)) break;`.
`fd` is the value of `(SOCKET)(fd)`. `r` is `fd_count - __i`, so the loop test
`__i < fd_count` is `r ≠ 0`; the result is `__i` after the loop. -/
def FD_SET_for (a : Nat → Nat) (fd : Nat) : Nat → Nat → Nat
  | 0, i => i
  | r + 1, i => if a i = fd then i else FD_SET_for a fd r (i + 1)

/-- The definition of `FD_SET(fd, set)`, lines 157-173 of net.h. The parameter
stands in parentheses at both places, `(SOCKET)(fd)`, so only the value of
the argument counts. `FD_SETSIZE` is a constant of winsock2.h and is taken as
a parameter. -/
def FD_SET (FD_SETSIZE : Nat) (fd : fd_arg) (set : fd_set) : fd_set :=
  let i := FD_SET_for set.fd_array fd.value set.fd_count 0
  if i = set.fd_count then
    if set.fd_count < FD_SETSIZE then
      { fd_array := fun j => if j = i then fd.value else set.fd_array j,
        fd_count := set.fd_count + 1 }
    else set
  else set

/-- The inner `while` of `FD_CLR`, lines 143-149 of net.h:
`while (__i < fd_count - 1) { fd_array[__i] = fd_array[__i + 1]; __i++; }`.
`r` is `fd_count - 1 - __i`, so the loop test is `r ≠ 0`. -/
def FD_CLR_while (a : Nat → Nat) : Nat → Nat → (Nat → Nat)
  | 0, _ => a
  | r + 1, i => FD_CLR_while (fun j => if j = i then a (i + 1) else a j) r (i + 1)

/-- The condition of the `if` of `FD_CLR`, lines 141-142 of net.h:
`fd_array[__i] == (SOCKET)fd`, the parameter not in parentheses; `x` is
`fd_array[__i]`. For a primary expression this is `x == (SOCKET)v`. For
`c ? a : b` the text is `x == (SOCKET)c ? a : b`, and since the cast and `==`
bind tighter than `?:` it reads `(x == (SOCKET)c) ? a : b`, which holds when
the selected one of `a`, `b` is non-zero. -/
def FD_CLR_test (x : Nat) : fd_arg → Bool
  | fd_arg.prim v => decide (x = v)
  | fd_arg.cond c a b => if x = c then decide (a ≠ 0) else decide (b ≠ 0)

/-- The `for` loop of `FD_CLR`, lines 140-153 of net.h. `r` is
`fd_count - __i`, so the loop test `__i < fd_count` is `r ≠ 0`, and at a match
`fd_count - 1 - __i` is `r - 1`. At the first entry that passes the test the
entries behind it are moved down one place, `fd_count` is decremented and the
loop is left. -/
def FD_CLR_for (fd : fd_arg) (set : fd_set) : Nat → Nat → fd_set
  | 0, _ => set
  | r + 1, i =>
    if FD_CLR_test (set.fd_array i) fd = true then
      { fd_array := FD_CLR_while set.fd_array r i,
        fd_count := set.fd_count - 1 }
    else FD_CLR_for fd set r (i + 1)

/-- The definition of `FD_CLR(fd, set)`, lines 137-154 of net.h. -/
def FD_CLR (fd : fd_arg) (set : fd_set) : fd_set :=
  FD_CLR_for fd set set.fd_count 0

/-- A set holding the sockets 7, 9, 4 (entries past `fd_count` are stale). -/
def set3 : fd_set :=
  { fd_count := 3, fd_array := fun i => [7, 9, 4, 1, 1].getD i 0 }

/-- A set holding the sockets 7, 9. -/
def set2 : fd_set :=
  { fd_count := 2, fd_array := fun i => [7, 9].getD i 0 }

/-- The argument `c ? 9 : 4` with `c` equal to 0: its value is 4. -/
def arg_c94 : fd_arg := fd_arg.cond 0 9 4

end Winsock

namespace Copyinstr

/-! ### The loop -/

theorem kcopy_zero (src : Nat → Option Byte) (k : Nat → Byte) (i : Nat) :
    kcopy src k i 0 = k := by
  funext j
  have : ¬ (i ≤ j ∧ j < i + 0) := by omega
  simp [kcopy, this]

theorem kcopy_succ (src : Nat → Option Byte) (k : Nat → Byte) (i m : Nat) (b : Byte)
    (hb : src i = some b) :
    kcopy src (stb k i b) (i + 1) m = kcopy src k i (m + 1) := by
  funext j
  unfold kcopy stb
  by_cases hji : j = i
  · subst hji
    have h1 : ¬ (j + 1 ≤ j ∧ j < j + 1 + m) := by omega
    have h2 : j ≤ j ∧ j < j + (m + 1) := by omega
    rw [if_neg h1, if_pos h2, if_pos rfl, hb]
    rfl
  · by_cases hin : i + 1 ≤ j ∧ j < i + 1 + m
    · have h2 : i ≤ j ∧ j < i + (m + 1) := by omega
      rw [if_pos hin, if_pos h2]
    · have h2 : ¬ (i ≤ j ∧ j < i + (m + 1)) := by omega
      rw [if_neg hin, if_neg h2, if_neg hji]

theorem kcopy_inside (src : Nat → Option Byte) (k : Nat → Byte) (i m j : Nat) (b : Byte)
    (h1 : i ≤ j) (h2 : j < i + m) (hb : src j = some b) : kcopy src k i m j = b := by
  unfold kcopy
  rw [if_pos ⟨h1, h2⟩, hb]
  rfl

theorem kcopy_outside (src : Nat → Option Byte) (k : Nat → Byte) (i m j : Nat)
    (h : j < i ∨ i + m ≤ j) : kcopy src k i m j = k j := by
  unfold kcopy
  have : ¬ (i ≤ j ∧ j < i + m) := by omega
  rw [if_neg this]

/-- A pass whose load faults leaves through the recovery point, the kernel
buffer as it stood. -/
theorem copy_loop_fault (uload : Nat → Nat → Option Byte) (ctx n i : Nat)
    (k : Nat → Byte) (tr : List (Nat × Nat)) (h : uload ctx i = none) :
    copy_loop uload ctx n i k tr = LoopExit.fault k ((ctx, i) :: tr) := by
  unfold copy_loop
  simp [h]

/-- A pass that loads a NUL byte stores it and falls through with CTR
decremented once. -/
theorem copy_loop_nul (uload : Nat → Nat → Option Byte) (ctx n i : Nat)
    (k : Nat → Byte) (tr : List (Nat × Nat)) (h : uload ctx i = some 0) :
    copy_loop uload ctx n i k tr
      = LoopExit.done n 0 (stb k i 0) ((ctx, i) :: tr) := by
  unfold copy_loop
  cases n <;> simp [h]

/-- A pass that brings CTR to zero stores its byte and falls through. -/
theorem copy_loop_last (uload : Nat → Nat → Option Byte) (ctx i : Nat)
    (k : Nat → Byte) (tr : List (Nat × Nat)) (b : Byte) (h : uload ctx i = some b) :
    copy_loop uload ctx 0 i k tr
      = LoopExit.done 0 b (stb k i b) ((ctx, i) :: tr) := by
  unfold copy_loop
  simp [h]

/-- After `m` passes that each load a non-NUL byte, with CTR not yet
exhausted, the loop stands `m` bytes further. -/
theorem copy_loop_steps (uload : Nat → Nat → Option Byte) (ctx : Nat) :
    ∀ (m n i : Nat) (k : Nat → Byte) (tr : List (Nat × Nat)), m ≤ n →
      (∀ j, j < m → ∃ b, uload ctx (i + j) = some b ∧ b ≠ 0) →
      ∃ tr1, copy_loop uload ctx n i k tr
        = copy_loop uload ctx (n - m) (i + m) (kcopy (uload ctx) k i m) tr1 := by
  intro m
  induction m with
  | zero =>
    intro n i k tr _ _
    exact ⟨tr, by simp [kcopy_zero]⟩
  | succ m ih =>
    intro n i k tr hmn hpre
    obtain ⟨b, hb, hb0⟩ := hpre 0 (by omega)
    simp only [Nat.add_zero] at hb
    obtain ⟨n1, rfl⟩ : ∃ n1, n = n1 + 1 := ⟨n - 1, by omega⟩
    have hpre1 : ∀ j, j < m → ∃ b, uload ctx (i + 1 + j) = some b ∧ b ≠ 0 := by
      intro j hj
      have := hpre (j + 1) (by omega)
      rwa [show i + (j + 1) = i + 1 + j by omega] at this
    obtain ⟨tr1, h1⟩ := ih n1 (i + 1) (stb k i b) ((ctx, i) :: tr) (by omega) hpre1
    refine ⟨tr1, ?_⟩
    rw [copy_loop]
    simp only [hb, hb0, ne_eq, not_false_eq_true, if_true]
    have e1 : n1 + 1 - (m + 1) = n1 - m := by omega
    have e2 : i + (m + 1) = i + 1 + m := by omega
    rw [e1, e2, h1, kcopy_succ (uload ctx) k i m b hb]

/-- A call with `len ≠ 0` in terms of its loop. -/
theorem copyinstr_eq (ctx_alloc : pmap → pmap) (uload : Nat → Nat → Option Byte)
    (s : KState) (env : Nat) (kaddr : Nat → Byte) (len : Nat) (done : Option Nat)
    (hlen : len ≠ 0) :
    copyinstr ctx_alloc uload s env kaddr len done =
      match copy_loop uload (assign_ctx ctx_alloc s.pm).2.1
          (len - 1) 0 kaddr [] with
      | LoopExit.fault k loads =>
        { rv := setfault_fault_rv, done := done.map (fun _ => 0), kbuf := k,
          state := { pm := (assign_ctx ctx_alloc s.pm).1, pcb_onfault := none },
          loads := loads, allocs := (assign_ctx ctx_alloc s.pm).2.2, faulted := true }
      | LoopExit.done resid data k loads =>
        { rv := if resid = 0 ∧ data ≠ 0 then ENAMETOOLONG else 0,
          done := done.map (fun _ => len - resid), kbuf := k,
          state := { pm := (assign_ctx ctx_alloc s.pm).1, pcb_onfault := none },
          loads := loads, allocs := (assign_ctx ctx_alloc s.pm).2.2, faulted := false } := by
  unfold copyinstr
  rw [if_neg hlen]
  rfl

/-! ### The contract of `copyinstr` -/

/-- C1. When the bytes of the user string up to its first NUL, at offset `n`,
are readable and `n + 1 <= len` (equality included), `copyinstr` returns 0,
stores `n + 1` in `*done`, and the first `n + 1` bytes of the kernel buffer
are the first `n + 1` source bytes, the last of them NUL. -/
theorem copyinstr_terminated (ctx_alloc : pmap → pmap)
    (uload : Nat → Nat → Option Byte) (s : KState) (env : Nat)
    (kaddr : Nat → Byte) (len d0 n : Nat)
    (hpre : ∀ i, i < n → ∃ b, user_bytes ctx_alloc uload s i = some b ∧ b ≠ 0)
    (hnul : user_bytes ctx_alloc uload s n = some 0)
    (hfit : n + 1 ≤ len) :
    (copyinstr ctx_alloc uload s env kaddr len (some d0)).rv = 0 ∧
    (copyinstr ctx_alloc uload s env kaddr len (some d0)).done = some (n + 1) ∧
    (∀ i, i < n + 1 →
      some ((copyinstr ctx_alloc uload s env kaddr len (some d0)).kbuf i)
        = user_bytes ctx_alloc uload s i) ∧
    (copyinstr ctx_alloc uload s env kaddr len (some d0)).kbuf n = 0 ∧
    (copyinstr ctx_alloc uload s env kaddr len (some d0)).faulted = false := by
  unfold user_bytes at hpre hnul
  have hpre0 : ∀ j, j < n →
      ∃ b, uload (assign_ctx ctx_alloc s.pm).2.1 (0 + j) = some b ∧ b ≠ 0 := by
    intro j hj
    simpa using hpre j hj
  obtain ⟨tr1, h1⟩ := copy_loop_steps uload (assign_ctx ctx_alloc s.pm).2.1 n
    (len - 1) 0 kaddr [] (by omega) hpre0
  rw [Nat.zero_add] at h1
  rw [copy_loop_nul uload _ _ _ _ _ hnul] at h1
  rw [copyinstr_eq ctx_alloc uload s env kaddr len (some d0) (by omega), h1]
  refine ⟨by simp, ?_, ?_, by simp [stb], rfl⟩
  · show some (len - (len - 1 - n)) = some (n + 1)
    congr 1
    omega
  · intro i hi
    show some (stb (kcopy (uload (assign_ctx ctx_alloc s.pm).2.1) kaddr 0 n) n 0 i)
      = user_bytes ctx_alloc uload s i
    unfold user_bytes stb
    by_cases hin : i = n
    · rw [if_pos hin, hin, hnul]
    · rw [if_neg hin]
      obtain ⟨b, hb, _⟩ := hpre i (by omega)
      rw [kcopy_inside _ _ _ _ _ b (by omega) (by omega) hb, hb]

/-- C1, the scenario of the spec: `"hello\0world"` with `len = 20` gives
success, six bytes reported, `"hello\0"` in the buffer; and with `len = 6`,
the boundary, the same. -/
theorem copyinstr_terminated_witness :
    ((copyinstr alloc5 hello s0 9 kfill 20 (some 77)).rv = 0 ∧
     (copyinstr alloc5 hello s0 9 kfill 20 (some 77)).done = some (5 + 1) ∧
     (∀ i, i < 5 + 1 →
       some ((copyinstr alloc5 hello s0 9 kfill 20 (some 77)).kbuf i)
         = user_bytes alloc5 hello s0 i) ∧
     (copyinstr alloc5 hello s0 9 kfill 20 (some 77)).kbuf 5 = 0 ∧
     (copyinstr alloc5 hello s0 9 kfill 20 (some 77)).faulted = false) ∧
    (copyinstr alloc5 hello s0 9 kfill 6 (some 77)).rv = 0 ∧
    (copyinstr alloc5 hello s0 9 kfill 6 (some 77)).done = some 6 :=
  ⟨copyinstr_terminated alloc5 hello s0 9 kfill 20 77 5
    (by decide) (by decide) (by decide), by decide, by decide⟩

/-- C2. When none of the first `len` source bytes is NUL and all of them are
readable, `copyinstr` returns `ENAMETOOLONG` (which is not 0), stores `len` in
`*done`, and the first `len` bytes of the kernel buffer are the first `len`
source bytes, none of them NUL. -/
theorem copyinstr_toolong (ctx_alloc : pmap → pmap)
    (uload : Nat → Nat → Option Byte) (s : KState) (env : Nat)
    (kaddr : Nat → Byte) (len d0 : Nat)
    (hlen : 0 < len)
    (hsrc : ∀ i, i < len → ∃ b, user_bytes ctx_alloc uload s i = some b ∧ b ≠ 0) :
    (copyinstr ctx_alloc uload s env kaddr len (some d0)).rv = ENAMETOOLONG ∧
    ENAMETOOLONG ≠ 0 ∧
    (copyinstr ctx_alloc uload s env kaddr len (some d0)).done = some len ∧
    (∀ i, i < len →
      some ((copyinstr ctx_alloc uload s env kaddr len (some d0)).kbuf i)
        = user_bytes ctx_alloc uload s i ∧
      (copyinstr ctx_alloc uload s env kaddr len (some d0)).kbuf i ≠ 0) ∧
    (copyinstr ctx_alloc uload s env kaddr len (some d0)).faulted = false := by
  unfold user_bytes at hsrc
  have hpre0 : ∀ j, j < len - 1 →
      ∃ b, uload (assign_ctx ctx_alloc s.pm).2.1 (0 + j) = some b ∧ b ≠ 0 := by
    intro j hj
    simpa using hsrc j (by omega)
  obtain ⟨tr1, h1⟩ := copy_loop_steps uload (assign_ctx ctx_alloc s.pm).2.1 (len - 1)
    (len - 1) 0 kaddr [] (by omega) hpre0
  obtain ⟨b, hb, hb0⟩ := hsrc (len - 1) (by omega)
  rw [Nat.zero_add, Nat.sub_self] at h1
  rw [copy_loop_last uload _ _ _ _ b hb] at h1
  rw [copyinstr_eq ctx_alloc uload s env kaddr len (some d0) (by omega), h1]
  refine ⟨by simp [hb0], by decide, by simp, ?_, rfl⟩
  intro i hi
  show some (stb (kcopy (uload (assign_ctx ctx_alloc s.pm).2.1) kaddr 0 (len - 1))
      (len - 1) b i) = user_bytes ctx_alloc uload s i ∧
    stb (kcopy (uload (assign_ctx ctx_alloc s.pm).2.1) kaddr 0 (len - 1)) (len - 1) b i ≠ 0
  unfold user_bytes stb
  by_cases hin : i = len - 1
  · rw [if_pos hin, hin, hb]
    exact ⟨rfl, hb0⟩
  · rw [if_neg hin]
    obtain ⟨c, hc, hc0⟩ := hsrc i hi
    rw [kcopy_inside _ _ _ _ _ c (by omega) (by omega) hc, hc]
    exact ⟨rfl, hc0⟩

/-- C2, the scenario of the spec: `"abcdef"` with `len = 4` gives "too long",
four bytes reported, `"abcd"` in the buffer. -/
theorem copyinstr_toolong_witness :
    (copyinstr alloc5 abcdef s0 9 kfill 4 (some 77)).rv = ENAMETOOLONG ∧
    ENAMETOOLONG ≠ 0 ∧
    (copyinstr alloc5 abcdef s0 9 kfill 4 (some 77)).done = some 4 ∧
    (∀ i, i < 4 →
      some ((copyinstr alloc5 abcdef s0 9 kfill 4 (some 77)).kbuf i)
        = user_bytes alloc5 abcdef s0 i ∧
      (copyinstr alloc5 abcdef s0 9 kfill 4 (some 77)).kbuf i ≠ 0) ∧
    (copyinstr alloc5 abcdef s0 9 kfill 4 (some 77)).faulted = false :=
  copyinstr_toolong alloc5 abcdef s0 9 kfill 4 77 (by decide) (by decide)

/-- C3. With `len == 0`, whatever the user memory, the kernel buffer and the
state, `copyinstr` returns 0, stores 0 in `*done` (when `done` is not `NULL`),
leaves the kernel buffer and the kernel state as they were, and executes no
user-memory load; it does not return through the recovery point. -/
theorem copyinstr_len_zero (ctx_alloc : pmap → pmap)
    (uload : Nat → Nat → Option Byte) (s : KState) (env : Nat)
    (kaddr : Nat → Byte) (d0 : Nat) :
    (copyinstr ctx_alloc uload s env kaddr 0 (some d0)).rv = 0 ∧
    (copyinstr ctx_alloc uload s env kaddr 0 (some d0)).done = some 0 ∧
    (copyinstr ctx_alloc uload s env kaddr 0 none).rv = 0 ∧
    (copyinstr ctx_alloc uload s env kaddr 0 none).done = none ∧
    (∀ done, (copyinstr ctx_alloc uload s env kaddr 0 done).kbuf = kaddr) ∧
    (∀ done, (copyinstr ctx_alloc uload s env kaddr 0 done).loads = []) ∧
    (∀ done, (copyinstr ctx_alloc uload s env kaddr 0 done).faulted = false) ∧
    (∀ done, (copyinstr ctx_alloc uload s env kaddr 0 done).state = s) :=
  ⟨rfl, rfl, rfl, rfl, fun _ => rfl, fun _ => rfl, fun _ => rfl, fun _ => rfl⟩

/-- When the loop falls through, CTR has not grown, and the kernel buffer is
changed only at the offsets of the passes made. -/
theorem copy_loop_done_frame (uload : Nat → Nat → Option Byte) (ctx : Nat) :
    ∀ (n i : Nat) (k : Nat → Byte) (tr : List (Nat × Nat)) (ctr : Nat) (data : Byte)
      (k1 : Nat → Byte) (tr1 : List (Nat × Nat)),
      copy_loop uload ctx n i k tr = LoopExit.done ctr data k1 tr1 →
      ctr ≤ n ∧ ∀ j, (j < i ∨ i + (n - ctr) < j) → k1 j = k j := by
  intro n
  induction n with
  | zero =>
    intro i k tr ctr data k1 tr1 h
    unfold copy_loop at h
    cases hu : uload ctx i with
    | none => simp [hu] at h
    | some b =>
      simp only [hu] at h
      injection h with h1 h2 h3 h4
      subst h1 h3
      refine ⟨Nat.le_refl _, ?_⟩
      intro j hj
      have : j ≠ i := by omega
      simp [stb, this]
  | succ n ih =>
    intro i k tr ctr data k1 tr1 h
    unfold copy_loop at h
    cases hu : uload ctx i with
    | none => simp [hu] at h
    | some b =>
      simp only [hu] at h
      by_cases hb : b ≠ 0
      · rw [if_pos hb] at h
        obtain ⟨hle, hfr⟩ := ih (i + 1) (stb k i b) ((ctx, i) :: tr) ctr data k1 tr1 h
        refine ⟨by omega, ?_⟩
        intro j hj
        have hne : j ≠ i := by omega
        rw [hfr j (by omega)]
        simp [stb, hne]
      · rw [if_neg hb] at h
        injection h with h1 h2 h3 h4
        subst h1 h3
        refine ⟨Nat.le_refl _, ?_⟩
        intro j hj
        have : j ≠ i := by omega
        simp [stb, this]

/-- C4. When the read of a user byte faults before a NUL byte or the `len`-th
byte has been copied (offsets below `m` readable and non-NUL, offset `m < len`
faulting), `copyinstr` returns through the recovery point with the "bad
address" error `EFAULT`, which is neither 0 nor `ENAMETOOLONG`, and stores 0
in `*done`. -/
theorem copyinstr_fault (ctx_alloc : pmap → pmap)
    (uload : Nat → Nat → Option Byte) (s : KState) (env : Nat)
    (kaddr : Nat → Byte) (len d0 m : Nat)
    (hm : m < len)
    (hpre : ∀ i, i < m → ∃ b, user_bytes ctx_alloc uload s i = some b ∧ b ≠ 0)
    (hflt : user_bytes ctx_alloc uload s m = none) :
    (copyinstr ctx_alloc uload s env kaddr len (some d0)).rv = EFAULT ∧
    EFAULT ≠ 0 ∧ EFAULT ≠ ENAMETOOLONG ∧
    (copyinstr ctx_alloc uload s env kaddr len (some d0)).done = some 0 ∧
    (copyinstr ctx_alloc uload s env kaddr len (some d0)).faulted = true := by
  unfold user_bytes at hpre hflt
  have hpre0 : ∀ j, j < m →
      ∃ b, uload (assign_ctx ctx_alloc s.pm).2.1 (0 + j) = some b ∧ b ≠ 0 := by
    intro j hj
    simpa using hpre j hj
  obtain ⟨tr1, h1⟩ := copy_loop_steps uload (assign_ctx ctx_alloc s.pm).2.1 m
    (len - 1) 0 kaddr [] (by omega) hpre0
  rw [Nat.zero_add, copy_loop_fault uload _ _ _ _ _ hflt] at h1
  rw [copyinstr_eq ctx_alloc uload s env kaddr len (some d0) (by omega), h1]
  exact ⟨rfl, by decide, by decide, rfl, rfl⟩

/-- C4, the scenario of the spec: an unmapped `user_src` with `len = 10` gives
"bad address" and zero bytes reported. -/
theorem copyinstr_fault_witness :
    (copyinstr alloc5 unmapped s0 9 kfill 10 (some 77)).rv = EFAULT ∧
    EFAULT ≠ 0 ∧ EFAULT ≠ ENAMETOOLONG ∧
    (copyinstr alloc5 unmapped s0 9 kfill 10 (some 77)).done = some 0 ∧
    (copyinstr alloc5 unmapped s0 9 kfill 10 (some 77)).faulted = true :=
  copyinstr_fault alloc5 unmapped s0 9 kfill 10 77 0 (by decide) (by decide)
    (by decide)

/-- C8. When the first `m` source bytes are readable and non-NUL and the read
of source byte `m < len` faults, then after `copyinstr` the first `m` bytes of
the kernel buffer are the first `m` source bytes, every byte of the kernel
buffer at offset `m` or beyond is unchanged, and `*done` is 0. -/
theorem copyinstr_fault_buffer (ctx_alloc : pmap → pmap)
    (uload : Nat → Nat → Option Byte) (s : KState) (env : Nat)
    (kaddr : Nat → Byte) (len d0 m : Nat)
    (hm : m < len)
    (hpre : ∀ i, i < m → ∃ b, user_bytes ctx_alloc uload s i = some b ∧ b ≠ 0)
    (hflt : user_bytes ctx_alloc uload s m = none) :
    (∀ i, i < m →
      some ((copyinstr ctx_alloc uload s env kaddr len (some d0)).kbuf i)
        = user_bytes ctx_alloc uload s i) ∧
    (∀ i, m ≤ i →
      (copyinstr ctx_alloc uload s env kaddr len (some d0)).kbuf i = kaddr i) ∧
    (copyinstr ctx_alloc uload s env kaddr len (some d0)).done = some 0 := by
  unfold user_bytes at hpre hflt
  have hpre0 : ∀ j, j < m →
      ∃ b, uload (assign_ctx ctx_alloc s.pm).2.1 (0 + j) = some b ∧ b ≠ 0 := by
    intro j hj
    simpa using hpre j hj
  obtain ⟨tr1, h1⟩ := copy_loop_steps uload (assign_ctx ctx_alloc s.pm).2.1 m
    (len - 1) 0 kaddr [] (by omega) hpre0
  rw [Nat.zero_add, copy_loop_fault uload _ _ _ _ _ hflt] at h1
  rw [copyinstr_eq ctx_alloc uload s env kaddr len (some d0) (by omega), h1]
  refine ⟨?_, ?_, rfl⟩
  · intro i hi
    obtain ⟨b, hb, _⟩ := hpre i hi
    show some (kcopy (uload (assign_ctx ctx_alloc s.pm).2.1) kaddr 0 m i)
      = user_bytes ctx_alloc uload s i
    unfold user_bytes
    rw [kcopy_inside _ _ _ _ _ b (by omega) (by omega) hb, hb]
  · intro i hi
    exact kcopy_outside _ _ _ _ _ (by omega)

/-- C8 on `"abcdef"` followed by an unmapped page, `len = 10`: six bytes are
in the buffer, the rest of it is untouched, zero is reported. -/
theorem copyinstr_fault_buffer_witness :
    (∀ i, i < 6 →
      some ((copyinstr alloc5 abcdef s0 9 kfill 10 (some 77)).kbuf i)
        = user_bytes alloc5 abcdef s0 i) ∧
    (∀ i, 6 ≤ i →
      (copyinstr alloc5 abcdef s0 9 kfill 10 (some 77)).kbuf i = kfill i) ∧
    (copyinstr alloc5 abcdef s0 9 kfill 10 (some 77)).done = some 0 :=
  copyinstr_fault_buffer alloc5 abcdef s0 9 kfill 10 77 6 (by decide) (by decide)
    (by decide)

/-- C9. For a call with `len > 0` that does not fault, the value `d` stored in
`*done` satisfies `1 <= d <= len`, and every byte of the kernel buffer at
offset `d` or beyond is unchanged. -/
theorem copyinstr_done_bounds (ctx_alloc : pmap → pmap)
    (uload : Nat → Nat → Option Byte) (s : KState) (env : Nat)
    (kaddr : Nat → Byte) (len d0 : Nat)
    (hlen : 0 < len)
    (hnf : (copyinstr ctx_alloc uload s env kaddr len (some d0)).faulted = false) :
    ∃ d, (copyinstr ctx_alloc uload s env kaddr len (some d0)).done = some d ∧
      1 ≤ d ∧ d ≤ len ∧
      ∀ i, d ≤ i →
        (copyinstr ctx_alloc uload s env kaddr len (some d0)).kbuf i = kaddr i := by
  rw [copyinstr_eq ctx_alloc uload s env kaddr len (some d0) (by omega)] at hnf ⊢
  cases hl : copy_loop uload (assign_ctx ctx_alloc s.pm).2.1
      (len - 1) 0 kaddr [] with
  | fault k1 tr1 =>
    rw [hl] at hnf
    simp at hnf
  | done ctr data k1 tr1 =>
    obtain ⟨hle, hfr⟩ := copy_loop_done_frame uload _ _ _ _ _ _ _ _ _ hl
    refine ⟨len - ctr, rfl, by omega, by omega, ?_⟩
    intro i hi
    exact hfr i (Or.inr (by omega))

/-- C9 on `"hello\0world"` with `len = 20`: six bytes reported, and offsets 6
and beyond, where `"world"` would go, are untouched. -/
theorem copyinstr_done_bounds_witness :
    ∃ d, (copyinstr alloc5 hello s0 9 kfill 20 (some 77)).done = some d ∧
      1 ≤ d ∧ d ≤ 20 ∧
      ∀ i, d ≤ i → (copyinstr alloc5 hello s0 9 kfill 20 (some 77)).kbuf i = kfill i :=
  copyinstr_done_bounds alloc5 hello s0 9 kfill 20 77 (by decide) (by decide)

/-- The context id that lines 67-71 leave in the pmap is the one they leave
in the local `ctx`. -/
theorem assign_ctx_ctx (ctx_alloc : pmap → pmap) (pm : pmap) :
    (assign_ctx ctx_alloc pm).1.pm_ctx = (assign_ctx ctx_alloc pm).2.1 := by
  unfold assign_ctx
  split <;> rfl

/-- Every load of the loop is made with PID holding `ctx`, and the loop makes
at least one. -/
theorem copy_loop_loads (uload : Nat → Nat → Option Byte) (ctx : Nat) :
    ∀ (n i : Nat) (k : Nat → Byte) (tr : List (Nat × Nat)),
      (∀ e ∈ tr, e.1 = ctx) →
      (copy_loop uload ctx n i k tr).loads ≠ [] ∧
      ∀ e ∈ (copy_loop uload ctx n i k tr).loads, e.1 = ctx := by
  have hcons : ∀ (i : Nat) (tr : List (Nat × Nat)), (∀ e ∈ tr, e.1 = ctx) →
      ∀ e ∈ (ctx, i) :: tr, e.1 = ctx := by
    intro i tr htr e he
    rcases List.mem_cons.mp he with h | h
    · rw [h]
    · exact htr e h
  intro n
  induction n with
  | zero =>
    intro i k tr htr
    unfold copy_loop
    cases hu : uload ctx i with
    | none => exact ⟨List.cons_ne_nil _ _, hcons i tr htr⟩
    | some b => exact ⟨List.cons_ne_nil _ _, hcons i tr htr⟩
  | succ n ih =>
    intro i k tr htr
    unfold copy_loop
    cases hu : uload ctx i with
    | none => exact ⟨List.cons_ne_nil _ _, hcons i tr htr⟩
    | some b =>
      by_cases hb : b ≠ 0
      · simp only [hb, ne_eq, not_false_eq_true, if_true]
        exact ih (i + 1) _ _ (hcons i tr htr)
      · simp only [hb, if_false]
        exact ⟨List.cons_ne_nil _ _, hcons i tr htr⟩

/-- The loads and the state of a call with `len ≠ 0`. -/
theorem copyinstr_loads (ctx_alloc : pmap → pmap) (uload : Nat → Nat → Option Byte)
    (s : KState) (env : Nat) (kaddr : Nat → Byte) (len : Nat) (done : Option Nat)
    (hlen : len ≠ 0) :
    (copyinstr ctx_alloc uload s env kaddr len done).loads
      = (copy_loop uload (assign_ctx ctx_alloc s.pm).2.1
          (len - 1) 0 kaddr []).loads ∧
    (copyinstr ctx_alloc uload s env kaddr len done).state
      = { pm := (assign_ctx ctx_alloc s.pm).1, pcb_onfault := none } ∧
    (copyinstr ctx_alloc uload s env kaddr len done).allocs
      = (assign_ctx ctx_alloc s.pm).2.2 := by
  rw [copyinstr_eq ctx_alloc uload s env kaddr len done hlen]
  cases copy_loop uload (assign_ctx ctx_alloc s.pm).2.1
    (len - 1) 0 kaddr [] <;> exact ⟨rfl, rfl, rfl⟩

/-- Agreement of two loop exits relative to buffers one store further is
agreement relative to the buffers before the store. -/
theorem agree_stb (k1 k2 : Nat → Byte) (i : Nat) (b : Byte) (x y : LoopExit)
    (h : LoopExit.agree (stb k1 i b) (stb k2 i b) x y) : LoopExit.agree k1 k2 x y := by
  have key : ∀ (a c : Nat → Byte),
      (∀ j, a j = c j ∨ (a j = stb k1 i b j ∧ c j = stb k2 i b j)) →
      ∀ j, a j = c j ∨ (a j = k1 j ∧ c j = k2 j) := by
    intro a c hac j
    rcases hac j with h1 | ⟨h1, h2⟩
    · exact Or.inl h1
    · by_cases hj : j = i
      · left
        rw [h1, h2]
        simp [stb, hj]
      · right
        rw [h1, h2]
        simp [stb, hj]
  cases x <;> cases y
  · exact key _ _ h
  · exact h
  · exact h
  · exact ⟨h.1, h.2.1, key _ _ h.2.2⟩

/-- Two runs of the loop over the same user bytes, from the same CTR and
offset, agree, whatever context ids present those bytes. -/
theorem copy_loop_agree (uload : Nat → Nat → Option Byte) (c1 c2 : Nat)
    (hsame : ∀ i, uload c1 i = uload c2 i) :
    ∀ (n i : Nat) (k1 k2 : Nat → Byte) (t1 t2 : List (Nat × Nat)),
      LoopExit.agree k1 k2 (copy_loop uload c1 n i k1 t1)
        (copy_loop uload c2 n i k2 t2) := by
  have hst : ∀ (k1 k2 : Nat → Byte) (i : Nat) (b : Byte) (j : Nat),
      stb k1 i b j = stb k2 i b j ∨ (stb k1 i b j = k1 j ∧ stb k2 i b j = k2 j) := by
    intro k1 k2 i b j
    by_cases hj : j = i
    · left
      simp [stb, hj]
    · right
      simp [stb, hj]
  intro n
  induction n with
  | zero =>
    intro i k1 k2 t1 t2
    unfold copy_loop
    rw [← hsame i]
    cases hu : uload c1 i with
    | none => exact fun j => Or.inr ⟨rfl, rfl⟩
    | some b => exact ⟨rfl, rfl, hst k1 k2 i b⟩
  | succ n ih =>
    intro i k1 k2 t1 t2
    unfold copy_loop
    rw [← hsame i]
    cases hu : uload c1 i with
    | none => exact fun j => Or.inr ⟨rfl, rfl⟩
    | some b =>
      by_cases hb : b ≠ 0
      · simp only [hb, ne_eq, not_false_eq_true, if_true]
        exact agree_stb k1 k2 i b _ _ (ih (i + 1) _ _ _ _)
      · simp only [hb, if_false]
        exact ⟨rfl, rfl, hst k1 k2 i b⟩

/-- Two calls that read the same user bytes give the same result, whatever the
two kernel states are. -/
theorem copyinstr_same (ctx_alloc : pmap → pmap) (uload : Nat → Nat → Option Byte)
    (s1 s2 : KState) (env1 env2 : Nat) (k1 k2 : Nat → Byte) (len : Nat)
    (done1 done2 : Option Nat) (hd : done1.isSome = done2.isSome)
    (hsame : ∀ i, user_bytes ctx_alloc uload s1 i = user_bytes ctx_alloc uload s2 i) :
    Outcome.same_result k1 k2 (copyinstr ctx_alloc uload s1 env1 k1 len done1)
      (copyinstr ctx_alloc uload s2 env2 k2 len done2) := by
  have hmap : ∀ v : Nat, done1.map (fun _ => v) = done2.map (fun _ => v) := by
    intro v
    cases done1 <;> cases done2 <;> simp at hd ⊢
  by_cases hlen : len = 0
  · subst hlen
    exact ⟨rfl, hmap 0, rfl, fun j => Or.inr ⟨rfl, rfl⟩⟩
  · have hag := copy_loop_agree uload _ _ hsame (len - 1) 0 k1 k2 [] []
    rw [copyinstr_eq ctx_alloc uload s1 env1 k1 len done1 hlen,
      copyinstr_eq ctx_alloc uload s2 env2 k2 len done2 hlen]
    cases h1 : copy_loop uload (assign_ctx ctx_alloc s1.pm).2.1
        (len - 1) 0 k1 [] <;>
      cases h2 : copy_loop uload (assign_ctx ctx_alloc s2.pm).2.1
        (len - 1) 0 k2 [] <;>
      rw [h1, h2] at hag
    · exact ⟨rfl, hmap 0, rfl, hag⟩
    · exact hag.elim
    · exact hag.elim
    · obtain ⟨hc, hdt, hk⟩ := hag
      subst hc hdt
      exact ⟨rfl, hmap _, rfl, hk⟩

/-- Once a call has run, the pmap presents the same user bytes to the next
call, provided `ctx_alloc` assigns a non-zero context id. -/
theorem user_bytes_after (ctx_alloc : pmap → pmap) (uload : Nat → Nat → Option Byte)
    (s : KState) (env : Nat) (kaddr : Nat → Byte) (len : Nat) (done : Option Nat)
    (halloc : (ctx_alloc s.pm).pm_ctx ≠ 0) (i : Nat) :
    user_bytes ctx_alloc uload s i
      = user_bytes ctx_alloc uload (copyinstr ctx_alloc uload s env kaddr len done).state i := by
  by_cases hlen : len = 0
  · subst hlen
    rfl
  · rw [(copyinstr_loads ctx_alloc uload s env kaddr len done hlen).2.1]
    unfold user_bytes
    congr 1
    show (assign_ctx ctx_alloc s.pm).2.1
      = (assign_ctx ctx_alloc (assign_ctx ctx_alloc s.pm).1).2.1
    by_cases h0 : s.pm.pm_ctx = 0
    · have e1 : assign_ctx ctx_alloc s.pm
          = (ctx_alloc s.pm, (ctx_alloc s.pm).pm_ctx, 1) := by
        simp [assign_ctx, h0]
      rw [e1]
      simp [assign_ctx, halloc]
    · have e1 : assign_ctx ctx_alloc s.pm = (s.pm, s.pm.pm_ctx, 0) := by
        simp [assign_ctx, h0]
      rw [e1]
      simp [assign_ctx, h0]

/-- C5, as stated, fails: a call with `len == 0` made while a guard is
installed returns with the guard still installed. -/
theorem copyinstr_onfault_not_always_cleared :
    ¬ (∀ (ctx_alloc : pmap → pmap) (uload : Nat → Nat → Option Byte) (s : KState)
        (env : Nat) (kaddr : Nat → Byte) (len : Nat) (done : Option Nat),
        (copyinstr ctx_alloc uload s env kaddr len done).state.pcb_onfault = none) := by
  intro h
  have h1 := h alloc5 hello s7 9 kfill 0 (some 77)
  have h2 : (copyinstr alloc5 hello s7 9 kfill 0 (some 77)).state.pcb_onfault = some 3 := by
    decide
  rw [h2] at h1
  exact Option.noConfusion h1

/-- C5, amended. On every exit path of a call with `len > 0` (success, string
too long, fault) `curpcb->pcb_onfault` is `NULL` when `copyinstr` returns; on
the `len == 0` early return it is what it was on entry. -/
theorem copyinstr_onfault (ctx_alloc : pmap → pmap)
    (uload : Nat → Nat → Option Byte) (s : KState) (env : Nat)
    (kaddr : Nat → Byte) (len : Nat) (done : Option Nat) :
    (0 < len →
      (copyinstr ctx_alloc uload s env kaddr len done).state.pcb_onfault = none) ∧
    (len = 0 →
      (copyinstr ctx_alloc uload s env kaddr len done).state.pcb_onfault
        = s.pcb_onfault) := by
  constructor
  · intro hlen
    rw [(copyinstr_loads ctx_alloc uload s env kaddr len done (by omega)).2.1]
  · intro hlen
    subst hlen
    rfl

/-- C5, amended, on a state with a guard installed: the guard is gone
after a call with `len = 20` and still there after a call with `len = 0`. -/
theorem copyinstr_onfault_witness :
    (copyinstr alloc5 hello s7 9 kfill 20 none).state.pcb_onfault = none ∧
    (copyinstr alloc5 hello s7 9 kfill 0 none).state.pcb_onfault = some 3 :=
  ⟨(copyinstr_onfault alloc5 hello s7 9 kfill 20 none).1 (by decide),
   (copyinstr_onfault alloc5 hello s7 9 kfill 0 none).2 rfl⟩

/-- C6. Two calls of `copyinstr` with the same `len` that read the same source
bytes give the same result (return value, `*done`, destination contents at
every offset written), whatever the two kernel states are, in particular
whether `pm_ctx` is zero or already assigned; and a second call made in the
state the first one left reads the same source bytes, hence gives the same
result, given that `ctx_alloc` assigns a non-zero id. -/
theorem copyinstr_twice (ctx_alloc : pmap → pmap)
    (uload : Nat → Nat → Option Byte) (s1 s2 : KState) (env1 env2 : Nat)
    (k1 k2 : Nat → Byte) (len d1 d2 : Nat) :
    ((∀ i, user_bytes ctx_alloc uload s1 i = user_bytes ctx_alloc uload s2 i) →
      Outcome.same_result k1 k2
        (copyinstr ctx_alloc uload s1 env1 k1 len (some d1))
        (copyinstr ctx_alloc uload s2 env2 k2 len (some d2))) ∧
    ((ctx_alloc s1.pm).pm_ctx ≠ 0 →
      Outcome.same_result k1 k2
        (copyinstr ctx_alloc uload s1 env1 k1 len (some d1))
        (copyinstr ctx_alloc uload
          (copyinstr ctx_alloc uload s1 env1 k1 len (some d1)).state env2 k2 len
          (some d2))) :=
  ⟨fun hsame => copyinstr_same ctx_alloc uload s1 s2 env1 env2 k1 k2 len _ _ rfl hsame,
   fun halloc => copyinstr_same ctx_alloc uload s1 _ env1 env2 k1 k2 len _ _ rfl
     (user_bytes_after ctx_alloc uload s1 env1 k1 len (some d1) halloc)⟩

/-- C6 on `"hello\0world"`, `len = 20`: the first call starts with `pm_ctx`
zero, the second runs in the state the first one left, where `pm_ctx` is 5;
both destination buffers start out filled with `0xAA`. -/
theorem copyinstr_twice_witness :
    (copyinstr alloc5 hello s0 9 kfill 20 (some 77)).state.pm.pm_ctx = 5 ∧
    Outcome.same_result kfill kfill
      (copyinstr alloc5 hello s0 9 kfill 20 (some 77))
      (copyinstr alloc5 hello
        (copyinstr alloc5 hello s0 9 kfill 20 (some 77)).state 8 kfill 20 (some 0)) :=
  ⟨by decide,
   (copyinstr_twice alloc5 hello s0 s0 9 8 kfill kfill 20 77 0).2 (by decide)⟩

/-- C7. A call with `len > 0` runs its loop with the context id of the pmap:
when `pm_ctx` is zero on entry `ctx_alloc` is called exactly once and the pmap
it returns is the one left behind; when `pm_ctx` is non-zero `ctx_alloc` is
not called and the pmap is unchanged; in both cases the loop makes at least
one load, every load is made with PID holding the `pm_ctx` left behind, and
that id is non-zero given that `ctx_alloc` assigns a non-zero id. With
`len == 0` `ctx_alloc` is not called, the pmap is unchanged and no load is
made. -/
theorem copyinstr_ctx (ctx_alloc : pmap → pmap)
    (uload : Nat → Nat → Option Byte) (s : KState) (env : Nat)
    (kaddr : Nat → Byte) (len : Nat) (done : Option Nat) :
    (0 < len →
      (s.pm.pm_ctx = 0 →
        (copyinstr ctx_alloc uload s env kaddr len done).allocs = 1 ∧
        (copyinstr ctx_alloc uload s env kaddr len done).state.pm = ctx_alloc s.pm) ∧
      (s.pm.pm_ctx ≠ 0 →
        (copyinstr ctx_alloc uload s env kaddr len done).allocs = 0 ∧
        (copyinstr ctx_alloc uload s env kaddr len done).state.pm = s.pm) ∧
      (copyinstr ctx_alloc uload s env kaddr len done).loads ≠ [] ∧
      (∀ e ∈ (copyinstr ctx_alloc uload s env kaddr len done).loads,
        e.1 = (copyinstr ctx_alloc uload s env kaddr len done).state.pm.pm_ctx) ∧
      ((ctx_alloc s.pm).pm_ctx ≠ 0 →
        (copyinstr ctx_alloc uload s env kaddr len done).state.pm.pm_ctx ≠ 0)) ∧
    (len = 0 →
      (copyinstr ctx_alloc uload s env kaddr len done).allocs = 0 ∧
      (copyinstr ctx_alloc uload s env kaddr len done).state.pm = s.pm ∧
      (copyinstr ctx_alloc uload s env kaddr len done).loads = []) := by
  constructor
  · intro hlen
    obtain ⟨hl, hs, ha⟩ := copyinstr_loads ctx_alloc uload s env kaddr len done (by omega)
    obtain ⟨hne, hall⟩ := copy_loop_loads uload (assign_ctx ctx_alloc s.pm).2.1
      (len - 1) 0 kaddr [] (by simp)
    rw [hl, hs, ha]
    refine ⟨?_, ?_, hne, ?_, ?_⟩
    · intro h0
      simp [assign_ctx, h0]
    · intro h0
      simp [assign_ctx, h0]
    · intro e he
      rw [hall e he]
      exact (assign_ctx_ctx ctx_alloc s.pm).symm
    · intro halloc
      show (assign_ctx ctx_alloc s.pm).1.pm_ctx ≠ 0
      by_cases h0 : s.pm.pm_ctx = 0
      · simpa [assign_ctx, h0] using halloc
      · simp [assign_ctx, h0]
  · intro hlen
    subst hlen
    exact ⟨rfl, rfl, rfl⟩

/-- C7 on `"hello\0world"`, `len = 20`: from `pm_ctx` zero one call of
`ctx_alloc` publishes id 5 and all six loads use it; from `pm_ctx` 5 there is
no call of `ctx_alloc`. -/
theorem copyinstr_ctx_witness :
    ((copyinstr alloc5 hello s0 9 kfill 20 none).allocs = 1 ∧
     (copyinstr alloc5 hello s0 9 kfill 20 none).state.pm = alloc5 s0.pm) ∧
    (∀ e ∈ (copyinstr alloc5 hello s0 9 kfill 20 none).loads,
      e.1 = (copyinstr alloc5 hello s0 9 kfill 20 none).state.pm.pm_ctx) ∧
    ((copyinstr alloc5 hello s7 9 kfill 20 none).allocs = 0 ∧
     (copyinstr alloc5 hello s7 9 kfill 20 none).state.pm = s7.pm) ∧
    (copyinstr alloc5 hello s0 9 kfill 20 none).loads.length = 6 :=
  ⟨((copyinstr_ctx alloc5 hello s0 9 kfill 20 none).1 (by decide)).1 rfl,
   ((copyinstr_ctx alloc5 hello s0 9 kfill 20 none).1 (by decide)).2.2.2.1,
   ((copyinstr_ctx alloc5 hello s7 9 kfill 20 none).1 (by decide)).2.1 (by decide),
   by decide⟩

end Copyinstr

namespace Winsock

/-! ### `FD_SET` and `FD_CLR` -/

/-- The search of `FD_SET` runs to the end when no entry matches. -/
theorem FD_SET_for_absent (a : Nat → Nat) (fd : Nat) :
    ∀ (r i : Nat), (∀ j, i ≤ j → j < i + r → a j ≠ fd) →
      FD_SET_for a fd r i = i + r := by
  intro r
  induction r with
  | zero =>
    intro i _
    rfl
  | succ r ih =>
    intro i h
    unfold FD_SET_for
    rw [if_neg (h i (Nat.le_refl _) (by omega)),
      ih (i + 1) (fun j h1 h2 => h j (by omega) (by omega))]
    omega

/-- The search of `FD_SET` stops short of the end when some entry matches. -/
theorem FD_SET_for_present (a : Nat → Nat) (fd : Nat) :
    ∀ (r i : Nat), (∃ j, i ≤ j ∧ j < i + r ∧ a j = fd) →
      FD_SET_for a fd r i < i + r := by
  intro r
  induction r with
  | zero =>
    intro i h
    obtain ⟨j, h1, h2, _⟩ := h
    omega
  | succ r ih =>
    intro i h
    obtain ⟨j, h1, h2, h3⟩ := h
    unfold FD_SET_for
    by_cases hi : a i = fd
    · rw [if_pos hi]
      omega
    · rw [if_neg hi]
      have hj : j ≠ i := by
        intro e
        rw [e] at h3
        exact hi h3
      have := ih (i + 1) ⟨j, by omega, by omega, h3⟩
      omega

/-- The loop of `FD_CLR` passes over `m` entries that fail its test and acts
at the first one that passes. -/
theorem FD_CLR_for_first (fd : fd_arg) (set : fd_set) :
    ∀ (m r i : Nat),
      (∀ j, i ≤ j → j < i + m → FD_CLR_test (set.fd_array j) fd = false) →
      FD_CLR_test (set.fd_array (i + m)) fd = true →
      FD_CLR_for fd set (m + (r + 1)) i =
        { fd_array := FD_CLR_while set.fd_array r (i + m),
          fd_count := set.fd_count - 1 } := by
  intro m
  induction m with
  | zero =>
    intro r i _ hfd
    rw [Nat.zero_add]
    unfold FD_CLR_for
    rw [Nat.add_zero] at hfd
    rw [if_pos hfd]
    rfl
  | succ m ih =>
    intro r i h hfd
    have e : m + 1 + (r + 1) = (m + (r + 1)) + 1 := by omega
    rw [e]
    unfold FD_CLR_for
    have hi : ¬ FD_CLR_test (set.fd_array i) fd = true := by
      rw [h i (Nat.le_refl _) (by omega)]
      exact Bool.false_ne_true
    rw [if_neg hi]
    have e2 : i + (m + 1) = i + 1 + m := by omega
    rw [e2] at hfd ⊢
    exact ih r (i + 1) (fun j h1 h2 => h j (by omega) (by omega)) hfd

/-- For an argument that is a primary expression `FD_CLR` undoes `FD_SET`: on
a set with `fd_count < FD_SETSIZE` whose first `fd_count` entries do not
contain `fd`, `FD_SET` stores `fd` at index `fd_count`, leaves every other
entry alone and increments `fd_count`, and a following `FD_CLR` restores
`fd_count` and the first `fd_count` entries, in their order. `FD_SET` of an
`fd` already among the first `fd_count` entries, or into a set with
`fd_count == FD_SETSIZE`, leaves the set unchanged. -/
theorem FD_CLR_undoes_FD_SET_primary (FD_SETSIZE fd : Nat) (set : fd_set) :
    (set.fd_count < FD_SETSIZE →
      (∀ i, i < set.fd_count → set.fd_array i ≠ fd) →
      (FD_SET FD_SETSIZE (fd_arg.prim fd) set).fd_count = set.fd_count + 1 ∧
      (FD_SET FD_SETSIZE (fd_arg.prim fd) set).fd_array set.fd_count = fd ∧
      (∀ i, i ≠ set.fd_count →
        (FD_SET FD_SETSIZE (fd_arg.prim fd) set).fd_array i = set.fd_array i) ∧
      (FD_CLR (fd_arg.prim fd) (FD_SET FD_SETSIZE (fd_arg.prim fd) set)).fd_count
        = set.fd_count ∧
      (∀ i, i < set.fd_count →
        (FD_CLR (fd_arg.prim fd) (FD_SET FD_SETSIZE (fd_arg.prim fd) set)).fd_array i
          = set.fd_array i)) ∧
    ((∃ i, i < set.fd_count ∧ set.fd_array i = fd) →
      FD_SET FD_SETSIZE (fd_arg.prim fd) set = set) ∧
    (set.fd_count = FD_SETSIZE → FD_SET FD_SETSIZE (fd_arg.prim fd) set = set) := by
  refine ⟨?_, ?_, ?_⟩
  · intro hc habs
    have hfor : FD_SET_for set.fd_array fd set.fd_count 0 = set.fd_count := by
      rw [FD_SET_for_absent set.fd_array fd set.fd_count 0
        (fun j _ h2 => habs j (by omega))]
      omega
    have hset : FD_SET FD_SETSIZE (fd_arg.prim fd) set =
        { fd_array := fun j => if j = set.fd_count then fd else set.fd_array j,
          fd_count := set.fd_count + 1 } := by
      unfold FD_SET
      simp only [fd_arg.value, hfor, if_true, if_pos hc]
    have hclr : FD_CLR (fd_arg.prim fd) (FD_SET FD_SETSIZE (fd_arg.prim fd) set) =
        { fd_array := fun j => if j = set.fd_count then fd else set.fd_array j,
          fd_count := set.fd_count } := by
      rw [hset]
      unfold FD_CLR
      have h := FD_CLR_for_first (fd_arg.prim fd)
        { fd_array := fun j => if j = set.fd_count then fd else set.fd_array j,
          fd_count := set.fd_count + 1 } set.fd_count 0 0
        (fun j _ h2 => by
          have hj : j ≠ set.fd_count := by omega
          simpa [FD_CLR_test, hj] using habs j (by omega))
        (by simp [FD_CLR_test])
      simp only [Nat.zero_add] at h
      rw [h]
      rfl
    rw [hclr, hset]
    refine ⟨rfl, by simp, ?_, rfl, ?_⟩
    · intro i hi
      simp [hi]
    · intro i hi
      have hne : i ≠ set.fd_count := by omega
      simp [hne]
  · intro hpres
    obtain ⟨i, hi, hfd⟩ := hpres
    have hlt := FD_SET_for_present set.fd_array fd set.fd_count 0
      ⟨i, Nat.zero_le _, by omega, hfd⟩
    unfold FD_SET
    have hne : FD_SET_for set.fd_array fd set.fd_count 0 ≠ set.fd_count := by omega
    simp only [fd_arg.value, if_neg hne]
  · intro hfull
    unfold FD_SET
    have hnlt : ¬ set.fd_count < FD_SETSIZE := by omega
    by_cases h : FD_SET_for set.fd_array fd set.fd_count 0 = set.fd_count
    · simp only [fd_arg.value, h, if_true, if_neg hnlt]
    · simp only [fd_arg.value, if_neg h]

/-- The round trip on the set holding 7, 9, 4 with the primary expression 5:
adding socket 5 with room for 64 and clearing it again restores the three
entries; adding 9, already there, changes nothing, and neither does adding 5
when `FD_SETSIZE` is 3. -/
theorem FD_CLR_undoes_FD_SET_primary_example :
    ((FD_SET 64 (fd_arg.prim 5) set3).fd_count = set3.fd_count + 1 ∧
      (FD_SET 64 (fd_arg.prim 5) set3).fd_array set3.fd_count = 5 ∧
      (∀ i, i ≠ set3.fd_count →
        (FD_SET 64 (fd_arg.prim 5) set3).fd_array i = set3.fd_array i) ∧
      (FD_CLR (fd_arg.prim 5) (FD_SET 64 (fd_arg.prim 5) set3)).fd_count
        = set3.fd_count ∧
      (∀ i, i < set3.fd_count →
        (FD_CLR (fd_arg.prim 5) (FD_SET 64 (fd_arg.prim 5) set3)).fd_array i
          = set3.fd_array i)) ∧
    FD_SET 64 (fd_arg.prim 9) set3 = set3 ∧
    FD_SET 3 (fd_arg.prim 5) set3 = set3 :=
  ⟨(FD_CLR_undoes_FD_SET_primary 64 5 set3).1 (by decide) (by decide),
   (FD_CLR_undoes_FD_SET_primary 64 9 set3).2.1 ⟨1, by decide, by decide⟩,
   (FD_CLR_undoes_FD_SET_primary 3 5 set3).2.2 rfl⟩

/-- C10. `FD_CLR` does not undo `FD_SET` at the argument `c ? 9 : 4` with `c`
zero, of value 4, on the set holding 7, 9 with `FD_SETSIZE` 64. The set has
room and does not contain 4; `FD_SET` appends 4 at index 2 and makes
`fd_count` 3, as claimed. `FD_CLR` with the same argument then tests
`(fd_array[0] == (SOCKET)c) ? 9 : 4`, which is non-zero, removes entry 0 and
leaves the set holding 9, 4: `fd_count` is back at 2, the original entries
are not. -/
theorem FD_CLR_unparenthesised_fd :
    (set2.fd_count < 64 ∧ arg_c94.value = 4 ∧
      (∀ i, i < set2.fd_count → set2.fd_array i ≠ arg_c94.value)) ∧
    ((FD_SET 64 arg_c94 set2).fd_count = set2.fd_count + 1 ∧
      (FD_SET 64 arg_c94 set2).fd_array set2.fd_count = arg_c94.value) ∧
    (FD_CLR arg_c94 (FD_SET 64 arg_c94 set2)).fd_count = set2.fd_count ∧
    set2.fd_array 0 = 7 ∧ set2.fd_array 1 = 9 ∧
    (FD_CLR arg_c94 (FD_SET 64 arg_c94 set2)).fd_array 0 = 9 ∧
    (FD_CLR arg_c94 (FD_SET 64 arg_c94 set2)).fd_array 1 = 4 ∧
    ¬ (∀ i, i < set2.fd_count →
        (FD_CLR arg_c94 (FD_SET 64 arg_c94 set2)).fd_array i = set2.fd_array i) := by
  refine ⟨⟨by decide, by decide, by decide⟩, ⟨by decide, by decide⟩, by decide,
    by decide, by decide, by decide, by decide, ?_⟩
  intro h
  have h0 := h 0 (by decide)
  have e : (FD_CLR arg_c94 (FD_SET 64 arg_c94 set2)).fd_array 0 = 9 := by decide
  have e7 : set2.fd_array 0 = 7 := by decide
  rw [e, e7] at h0
  exact absurd h0 (by decide)

end Winsock
